import Mathlib

/-!
Verification of the geometry core of an SVG to toolpath generator.

Coordinates are modelled as exact rationals. The source compares Euclidean
lengths computed by math.hypot against nonnegative bounds; here every such
comparison is rendered as the equivalent comparison of squared lengths
(for a nonnegative bound t, hypot d < t holds iff 0 <= t and dx^2 + dy^2 < t^2).
The unbounded recursions of the source (curve subdivision, the stitching
loops) are made structurally terminating by an explicit fuel parameter; the
fuel is always large enough on the paths actually taken, and theorems
quantify over the fuel wherever the fuel does not matter.
-/

attribute [local semireducible] Rat.mul Rat.add Rat.sub Rat.inv

abbrev Point : Type := ℚ × ℚ

/-- Squared Euclidean distance between two points; the square of the value
math.hypot computes in the source. -/
def dist2 (a b : Point) : ℚ := (a.1 - b.1) ^ 2 + (a.2 - b.2) ^ 2

/-- Squared form of the near zero duplicate threshold 1e-6 used at line 50 of
src/svg_parser.py. -/
def eps2 : ℚ := 1 / 1000000000000

/-- Insert an element into a sorted list, placing it before later elements with
an equal key. Insertion sort built from this insert is a stable sort, so it
agrees with the stable sort of the source language on every input. -/
def insertLe {α : Type} (le : α → α → Bool) (a : α) : List α → List α
  | [] => [a]
  | b :: bs => if le a b then a :: b :: bs else b :: insertLe le a bs

/-- Stable insertion sort. -/
def sortLe {α : Type} (le : α → α → Bool) : List α → List α
  | [] => []
  | a :: as => insertLe le a (sortLe le as)

/-- The seed ordering of smart_stitch_subpaths, line 23 of src/svg_parser.py:
a stable sort by descending subpath length. -/
def sortByLenDesc (l : List (List Point)) : List (List Point) :=
  sortLe (fun a b => decide (b.length ≤ a.length)) l

/-- The candidate scan of the inner loop of smart_stitch_subpaths, lines 30 to
43 of src/svg_parser.py: walk the remaining pool with an index, and for each
subpath compare the squared distances from its first point and from its last
point to the last chain point, keeping a strictly better candidate. -/
def updateBest (dStart dEnd : ℚ) (idx : ℕ) (best : Option (ℚ × ℕ × Bool)) :
    ℚ × ℕ × Bool :=
  let b1 : ℚ × ℕ × Bool :=
    match best with
    | none => (dStart, idx, false)
    | some (bd, bi, br) => if dStart < bd then (dStart, idx, false) else (bd, bi, br)
  if dEnd < b1.1 then (dEnd, idx, true) else b1

/-- The index walk of the candidate scan. -/
def findBestAux (lastPt : Point) :
    List (List Point) → ℕ → Option (ℚ × ℕ × Bool) → Option (ℚ × ℕ × Bool)
  | [], _, best => best
  | sub :: rest, idx, best =>
    findBestAux lastPt rest (idx + 1)
      (some (updateBest (dist2 (sub.headD (0, 0)) lastPt)
        (dist2 (sub.getLastD (0, 0)) lastPt) idx best))

/-- Result of the candidate scan: squared distance, index into the pool, and
whether the candidate subpath has to be reversed. -/
def findBest (lastPt : Point) (unused : List (List Point)) : Option (ℚ × ℕ × Bool) :=
  findBestAux lastPt unused 0 none

/-- Optional reversal of the chosen subpath, lines 47 and 48 of
src/svg_parser.py. -/
def renderFrag (sub : List Point) (rev : Bool) : List Point :=
  if rev then sub.reverse else sub

/-- Append the chosen subpath to the chain, dropping its leading point exactly
when that point coincides with the last chain point within the near zero
epsilon, lines 49 to 53 of src/svg_parser.py. -/
def appendFrag (chain frag : List Point) : List Point :=
  if dist2 (frag.headD (0, 0)) (chain.getLastD (0, 0)) < eps2 then chain ++ frag.tail
  else chain ++ frag

/-- One chain extension step: orient the chosen fragment, then append it with
the duplicate leading point rule. -/
def stepFrag (chain : List Point) (f : List Point × Bool) : List Point :=
  appendFrag chain (renderFrag f.1 f.2)

/-- Inner while loop of smart_stitch_subpaths, lines 27 to 55 of
src/svg_parser.py: extend the chain while the best remaining endpoint is
strictly within the tolerance. The source compares hypot distances with
best_dist < tolerance; with squared distances this is the guard
0 <= tol and bd < tol^2. Each extension removes one subpath from the pool, so
fuel equal to the initial pool size never runs out before the loop exits. -/
def stitchLoop (tol : ℚ) : ℕ → List Point → List (List Point) → List Point × List (List Point)
  | 0, chain, unused => (chain, unused)
  | fuel + 1, chain, unused =>
    match findBest (chain.getLastD (0, 0)) unused with
    | none => (chain, unused)
    | some (bd, idx, rev) =>
      if 0 ≤ tol ∧ bd < tol ^ 2 then
        stitchLoop tol fuel (stepFrag chain (unused.getD idx [], rev)) (unused.eraseIdx idx)
      else (chain, unused)

/-- Outer while loop of smart_stitch_subpaths, lines 24 to 56 of
src/svg_parser.py: pop the first pool element as the seed of a new chain,
extend it with the inner loop, and repeat until the pool is empty. -/
def stitchAll (tol : ℚ) : ℕ → List (List Point) → List (List Point)
  | 0, _ => []
  | _ + 1, [] => []
  | fuel + 1, current :: rest =>
    let res := stitchLoop tol rest.length current rest
    res.1 :: stitchAll tol fuel res.2

/-- smart_stitch_subpaths from src/svg_parser.py, lines 13 to 57: greedy
nearest endpoint chaining of subpaths, connecting only within the tolerance. -/
def smart_stitch_subpaths (subpaths : List (List Point)) (tolerance : ℚ) :
    List (List Point) :=
  if subpaths = [] then []
  else stitchAll tolerance (sortByLenDesc subpaths).length (sortByLenDesc subpaths)

/-- Role of a source path, as decided by the color test of get_paths_by_color. -/
inductive Role : Type
  | cut
  | score
  | discard
  deriving DecidableEq

/-- Color based classification, lines 66 to 75 of src/svg_parser.py: a stroke
whose three channels are all below 20 is black (Cut); otherwise a stroke with
red channel above 200 and green and blue channels below 50 is red (Score);
every other color is ignored. -/
def classify (c : ℕ × ℕ × ℕ) : Role :=
  if c.1 < 20 ∧ c.2.1 < 20 ∧ c.2.2 < 20 then Role.cut
  else if 200 < c.1 ∧ c.2.1 < 50 ∧ c.2.2 < 50 then Role.score
  else Role.discard

/-- Value of one hexadecimal digit character. -/
def hexDigit (c : Char) : ℕ :=
  if c.isDigit then c.toNat - 48
  else if ('a' ≤ c ∧ c ≤ 'f') then c.toNat - 87
  else if ('A' ≤ c ∧ c ≤ 'F') then c.toNat - 55
  else 0

/-- Modelled from the spec: the host collaborator supplies each stroke color as
three 0 to 255 channel values (the source obtains them through the external
inkex.Color). This models that external conversion on 6 digit hex strings,
the only stroke format appearing in this development. -/
def parseHexColor (s : String) : ℕ × ℕ × ℕ :=
  match s.toList with
  | '#' :: r1 :: r2 :: g1 :: g2 :: b1 :: b2 :: [] =>
    (16 * hexDigit r1 + hexDigit r2, 16 * hexDigit g1 + hexDigit g2,
      16 * hexDigit b1 + hexDigit b2)
  | _ => (0, 0, 0)

/-- One absolute path command of the command array the source walks in
_extract_path_data (the output of path.to_absolute().transform(t).to_arrays()).
For the A command only the final two parameters are ever read by the source, so
only those are modelled. -/
inductive PathCmd : Type
  | M (x y : ℚ)
  | L (x y : ℚ)
  | H (x : ℚ)
  | V (y : ℚ)
  | C (x1 y1 x2 y2 x3 y3 : ℚ)
  | S (x2 y2 x3 y3 : ℚ)
  | Q (x1 y1 x2 y2 : ℚ)
  | T (x y : ℚ)
  | A (x y : ℚ)
  | Z

/-- A member of the document selection: the isinstance check of line 60, the
stroke entry of the parsed style attribute if one is present, and the command
array of the path. -/
structure PathElem : Type where
  isPath : Bool
  stroke : Option String
  cmds : List PathCmd

/-- Lookup of the stroke style entry, line 62 of src/svg_parser.py:
style.get of stroke with default value the string for black. -/
def styleStroke (e : PathElem) : String := e.stroke.getD "#000000"

/-- Role decision for one element, lines 62 to 75 of src/svg_parser.py: an
empty or none stroke string is skipped, every other stroke string is parsed to
channels and classified by color. -/
def elementRole (parseColor : String → ℕ × ℕ × ℕ) (e : PathElem) : Role :=
  let sc := styleStroke e
  if sc = "" ∨ sc = "none" then Role.discard
  else classify (parseColor sc)

/-- point_line_dist2 from src/svg_parser.py, lines 91 to 97: squared distance
from a point to the segment between a and b, via the clamped projection
parameter. -/
def point_line_dist2 (p a b : Point) : ℚ :=
  if a = b then dist2 p a
  else
    let t := ((p.1 - a.1) * (b.1 - a.1) + (p.2 - a.2) * (b.2 - a.2)) / dist2 b a
    let tc := max 0 (min 1 t)
    let proj : Point := (a.1 + tc * (b.1 - a.1), a.2 + tc * (b.2 - a.2))
    dist2 p proj

/-- Coordinatewise midpoint of two points, the operation the subdivision of
lines 105 to 110 of src/svg_parser.py performs six times. -/
def midpoint2 (a b : Point) : Point := ((a.1 + b.1) / 2, (a.2 + b.2) / 2)

/-- The recursive subdivision core of _flatten_cubic_bezier, lines 99 to 113 of
src/svg_parser.py, with an explicit fuel bound on the recursion depth. The
first component is what the source returns. The second and third components
are ghost instrumentation used only to state theorems: the accepted leaf
segments (those emitted because both interior control points passed the
flatness test) and every subdivision midpoint computed on the way. -/
def flattenRec (flatness : ℚ) :
    ℕ → Point → Point → Point → Point →
      List Point × List (Point × Point × Point × Point) × List Point
  | 0, p0, _, _, p3 => ([p0, p3], [], [])
  | fuel + 1, p0, p1, p2, p3 =>
    let d1 := point_line_dist2 p1 p0 p3
    let d2 := point_line_dist2 p2 p0 p3
    if max d1 d2 < flatness ^ 2 then ([p0, p3], [(p0, p1, p2, p3)], [])
    else
      let p01 := midpoint2 p0 p1
      let p12 := midpoint2 p1 p2
      let p23 := midpoint2 p2 p3
      let p012 := midpoint2 p01 p12
      let p123 := midpoint2 p12 p23
      let p0123 := midpoint2 p012 p123
      let L := flattenRec flatness fuel p0 p01 p012 p0123
      let R := flattenRec flatness fuel p0123 p123 p23 p3
      (L.1.dropLast ++ R.1, L.2.1 ++ R.2.1, p0123 :: (L.2.2 ++ R.2.2))

/-- _flatten_cubic_bezier from src/svg_parser.py, lines 86 to 115. -/
def _flatten_cubic_bezier (fuel : ℕ) (p0 p1 p2 p3 : Point) (flatness : ℚ) :
    List Point :=
  (flattenRec flatness fuel p0 p1 p2 p3).1

/-- Ghost observer: the leaf segments the subdivision accepted by the flatness
test, with their control points. -/
def acceptedLeaves (fuel : ℕ) (p0 p1 p2 p3 : Point) (flatness : ℚ) :
    List (Point × Point × Point × Point) :=
  (flattenRec flatness fuel p0 p1 p2 p3).2.1

/-- Ghost observer: every subdivision midpoint computed during flattening. -/
def subdivPoints (fuel : ℕ) (p0 p1 p2 p3 : Point) (flatness : ℚ) : List Point :=
  (flattenRec flatness fuel p0 p1 p2 p3).2.2

/-- _flatten_quadratic_bezier from src/svg_parser.py, lines 117 to 120:
promote the quadratic to a cubic and flatten that. -/
def _flatten_quadratic_bezier (fuel : ℕ) (p0 p1 p2 : Point) (flatness : ℚ) :
    List Point :=
  let c1 : Point := (p0.1 + 2 / 3 * (p1.1 - p0.1), p0.2 + 2 / 3 * (p1.2 - p0.2))
  let c2 : Point := (p2.1 + 2 / 3 * (p1.1 - p2.1), p2.2 + 2 / 3 * (p1.2 - p2.2))
  _flatten_cubic_bezier fuel p0 c1 c2 p2 flatness

/-- Mutable state of the command walk of _extract_path_data: the finished
subpaths, the growing current subpath, the last emitted point, and the last
control point for the smooth shorthand commands. -/
structure ExtractState : Type where
  subpaths : List (List Point)
  current : List Point
  last : Point
  lastCtrl : Option Point

/-- One iteration of the command loop of _extract_path_data, lines 136 to 228
of src/svg_parser.py. -/
def extractStep (fuel : ℕ) (scale flatness : ℚ) (st : ExtractState) :
    PathCmd → ExtractState
  | PathCmd.M x y =>
    let subpaths := if st.current = [] then st.subpaths else st.subpaths ++ [st.current]
    let pt : Point := (x / scale, y / scale)
    { subpaths := subpaths, current := [pt], last := pt, lastCtrl := none }
  | PathCmd.L x y =>
    let pt : Point := (x / scale, y / scale)
    { st with current := st.current ++ [pt], last := pt, lastCtrl := none }
  | PathCmd.H x =>
    let pt : Point := (x / scale, st.last.2)
    { st with current := st.current ++ [pt], last := pt, lastCtrl := none }
  | PathCmd.V y =>
    let pt : Point := (st.last.1, y / scale)
    { st with current := st.current ++ [pt], last := pt, lastCtrl := none }
  | PathCmd.C x1 y1 x2 y2 x3 y3 =>
    let p1 : Point := (x1 / scale, y1 / scale)
    let p2 : Point := (x2 / scale, y2 / scale)
    let p3 : Point := (x3 / scale, y3 / scale)
    let pts := _flatten_cubic_bezier fuel st.last p1 p2 p3 flatness
    { st with current := st.current ++ pts.tail, last := p3, lastCtrl := some p2 }
  | PathCmd.S x2 y2 x3 y3 =>
    let p0 := st.last
    let p1 : Point :=
      match st.lastCtrl with
      | some lc => (2 * st.last.1 - lc.1, 2 * st.last.2 - lc.2)
      | none => p0
    let p2 : Point := (x2 / scale, y2 / scale)
    let p3 : Point := (x3 / scale, y3 / scale)
    let pts := _flatten_cubic_bezier fuel p0 p1 p2 p3 flatness
    { st with current := st.current ++ pts.tail, last := p3, lastCtrl := some p2 }
  | PathCmd.Q x1 y1 x2 y2 =>
    let p1 : Point := (x1 / scale, y1 / scale)
    let p2 : Point := (x2 / scale, y2 / scale)
    let pts := _flatten_quadratic_bezier fuel st.last p1 p2 flatness
    { st with current := st.current ++ pts.tail, last := p2, lastCtrl := some p1 }
  | PathCmd.T x y =>
    let p0 := st.last
    let p1 : Point :=
      match st.lastCtrl with
      | some lc => (2 * st.last.1 - lc.1, 2 * st.last.2 - lc.2)
      | none => p0
    let p2 : Point := (x / scale, y / scale)
    let pts := _flatten_quadratic_bezier fuel p0 p1 p2 flatness
    { st with current := st.current ++ pts.tail, last := p2, lastCtrl := some p1 }
  | PathCmd.A x y =>
    let xq := x / scale
    let yq := y / scale
    let pts : List Point :=
      (List.range 5).map fun i =>
        let t : ℚ := ((i : ℚ) + 1) / 5
        (st.last.1 * (1 - t) + xq * t, st.last.2 * (1 - t) + yq * t)
    { st with current := st.current ++ pts, last := (xq, yq), lastCtrl := none }
  | PathCmd.Z =>
    if st.current = [] then st
    else { st with current := st.current ++ [st.current.headD (0, 0)] }

/-- _extract_path_data from src/svg_parser.py, lines 122 to 232: walk the
command array and collect the finished subpaths, closing the trailing current
subpath if nonempty. -/
def _extract_path_data (fuel : ℕ) (scale flatness : ℚ) (cmds : List PathCmd) :
    List (List Point) :=
  let st := cmds.foldl (extractStep fuel scale flatness)
    { subpaths := [], current := [], last := (0, 0), lastCtrl := none }
  if st.current = [] then st.subpaths else st.subpaths ++ [st.current]

/-- One step of the accumulation of extracted subpaths over the selection,
lines 59 to 75 of src/svg_parser.py: only path elements are considered,
elements whose role differs are skipped, and an element whose extraction is
empty contributes nothing, else its subpaths extend the pool of its role. -/
def collectStep (parseColor : String → ℕ × ℕ × ℕ) (fuel : ℕ) (scale : ℚ)
    (role : Role) (acc : List (List Point)) (e : PathElem) : List (List Point) :=
  if e.isPath then
    if elementRole parseColor e = role then
      if _extract_path_data fuel scale (1 / 10) e.cmds = [] then acc
      else acc ++ _extract_path_data fuel scale (1 / 10) e.cmds
    else acc
  else acc

/-- The whole accumulation loop over the selection. -/
def collectSubpaths (parseColor : String → ℕ × ℕ × ℕ) (fuel : ℕ) (scale : ℚ)
    (role : Role) (es : List PathElem) : List (List Point) :=
  es.foldl (collectStep parseColor fuel scale role) []

/-- The deterministic pre stitching order of lines 78 and 79 of
src/svg_parser.py: a stable sort of the subpaths by their first point, with
(0, 0) as the key of an empty subpath, comparing keys lexicographically. -/
def sortSubpaths (l : List (List Point)) : List (List Point) :=
  sortLe
    (fun a b =>
      let ka := a.headD (0, 0)
      let kb := b.headD (0, 0)
      decide (ka.1 < kb.1 ∨ (ka.1 = kb.1 ∧ ka.2 ≤ kb.2)))
    l

/-- get_paths_by_color from src/svg_parser.py, lines 9 to 84: classify and
extract the selection, sort each role pool, stitch each pool with tolerance
0.3, and return the two stitched lists each wrapped in a singleton list. -/
def get_paths_by_color (parseColor : String → ℕ × ℕ × ℕ) (fuel : ℕ) (scale : ℚ)
    (es : List PathElem) :
    List (List (List Point)) × List (List (List Point)) :=
  let all_black := sortSubpaths (collectSubpaths parseColor fuel scale Role.cut es)
  let all_red := sortSubpaths (collectSubpaths parseColor fuel scale Role.score es)
  ([smart_stitch_subpaths all_black (3 / 10)],
    [smart_stitch_subpaths all_red (3 / 10)])

example :
    smart_stitch_subpaths [[(0, 0), (10, 0)], [(101 / 10, 0), (20, 0)]] (3 / 10) =
      [[(0, 0), (10, 0), (101 / 10, 0), (20, 0)]] := by decide

example :
    _extract_path_data 0 1 (1 / 10) [PathCmd.M 0 0, PathCmd.M 1 1, PathCmd.L 2 2] =
      [[(0, 0)], [(1, 1), (2, 2)]] := by decide

example :
    (get_paths_by_color parseHexColor 0 1
        [{ isPath := true, stroke := none, cmds := [PathCmd.M 0 0, PathCmd.L 1 0] }]).1 =
      [[[(0, 0), (1, 0)]]] := by decide

/-- Minimum of a list of rationals, as the builtin min of the source language
computes it on a nonempty list; the default 0 is never reached in use. -/
def pyMin : List ℚ → ℚ
  | [] => 0
  | x :: xs => xs.foldl min x

/-- Maximum of a list of rationals on a nonempty list. -/
def pyMax : List ℚ → ℚ
  | [] => 0
  | x :: xs => xs.foldl max x

/-- The shift_path closure of center_paths_on_bed, lines 1371 and 1372 of
src/gcode_generator.py: translate every point of every subpath of one path. -/
def shift_path (offset_x offset_y : ℚ) (path : List (List Point)) :
    List (List Point) :=
  path.map fun sub => sub.map fun p => (p.1 + offset_x, p.2 + offset_y)

/-- center_paths_on_bed from src/gcode_generator.py, lines 1355 to 1374:
return the inputs unchanged when there is no point at all, else translate
every path of both roles by the single offset that centers the bounding box
of the whole group on the bed. -/
def center_paths_on_bed (cut_paths score_paths : List (List (List Point)))
    (bed_w bed_h margin : ℚ) :
    List (List (List Point)) × List (List (List Point)) :=
  let all_points := ((cut_paths ++ score_paths).flatten).flatten
  if all_points = [] then (cut_paths, score_paths)
  else
    let min_x := pyMin (all_points.map Prod.fst)
    let max_x := pyMax (all_points.map Prod.fst)
    let min_y := pyMin (all_points.map Prod.snd)
    let max_y := pyMax (all_points.map Prod.snd)
    let svg_w := max_x - min_x
    let svg_h := max_y - min_y
    let offset_x := (bed_w - svg_w) / 2 - min_x
    let offset_y := (bed_h - svg_h) / 2 - min_y
    (cut_paths.map (shift_path offset_x offset_y),
      score_paths.map (shift_path offset_x offset_y))

/-- Center of the axis aligned bounding box of a list of points. -/
def bboxCenter (pts : List Point) : Point :=
  ((pyMin (pts.map Prod.fst) + pyMax (pts.map Prod.fst)) / 2,
    (pyMin (pts.map Prod.snd) + pyMax (pts.map Prod.snd)) / 2)

/-- The per point safety envelope test of line 826 of src/gcode_generator.py:
margin <= x <= bed_w - margin and margin <= y <= bed_h - margin, with both
endpoints included. -/
def point_in_bounds (bed_w bed_h margin : ℚ) (p : Point) : Bool :=
  decide (margin ≤ p.1 ∧ p.1 ≤ bed_w - margin ∧ margin ≤ p.2 ∧ p.2 ≤ bed_h - margin)

/-- The boundary check loop of lines 822 to 828 of src/gcode_generator.py: the
out of bounds flag is set exactly when some point fails the envelope test. -/
def out_of_bounds_check (bed_w bed_h margin : ℚ) (pts : List Point) : Bool :=
  pts.any fun p => !(point_in_bounds bed_w bed_h margin p)

/-- A selected path element whose style carries no stroke entry at all. -/
def exElemNoStroke : PathElem :=
  { isPath := true, stroke := none, cmds := [PathCmd.M 0 0, PathCmd.L 1 0] }

/-- A selected black path element whose command list opens with two move
commands in a row, so its first extracted subpath has exactly one point. -/
def exElemTwoMoves : PathElem :=
  { isPath := true, stroke := some "#000000",
    cmds := [PathCmd.M 0 0, PathCmd.M 1 1, PathCmd.L 2 2] }

/-- C1: the two subpaths [(0,0),(10,0)] and [(10.1,0),(20,0)] (10.1 = 101/10)
with stitch tolerance 0.3 stitch into exactly one toolpath whose point
sequence is [(0,0),(10,0),(10.1,0),(20,0)]: no point dropped, no reversal. -/
theorem stitch_end_to_end :
    smart_stitch_subpaths [[(0, 0), (10, 0)], [(101 / 10, 0), (20, 0)]] (3 / 10) =
      [[(0, 0), (10, 0), (101 / 10, 0), (20, 0)]] := by decide

/-- C5: the role classifier maps (19,19,19) to Cut, (21,21,21) to Discard,
(255,0,0) to Score, (201,49,49) to Score and (199,49,49) to Discard. -/
theorem classifier_boundary :
    classify (19, 19, 19) = Role.cut ∧ classify (21, 21, 21) = Role.discard ∧
      classify (255, 0, 0) = Role.score ∧ classify (201, 49, 49) = Role.score ∧
      classify (199, 49, 49) = Role.discard := by decide

/-- C8: with working area 300 by 200 and margin 5 the bounds check reports
(2,100) as out of bounds and (10,100) as in bounds, and in general a point is
in bounds exactly when margin <= x <= width - margin and
margin <= y <= height - margin, endpoints included. -/
theorem bounds_check_correct :
    out_of_bounds_check 300 200 5 [(2, 100)] = true ∧
      out_of_bounds_check 300 200 5 [(10, 100)] = false ∧
      ∀ bed_w bed_h margin x y,
        point_in_bounds bed_w bed_h margin (x, y) = true ↔
          (margin ≤ x ∧ x ≤ bed_w - margin ∧ margin ≤ y ∧ y ≤ bed_h - margin) := by
  refine ⟨by decide, by decide, ?_⟩
  intro bed_w bed_h margin x y
  simp [point_in_bounds]

/-- C10: for every input, get_paths_by_color returns a pair of singleton
lists, the first wrapping the single stitched cut toolpath list and the second
wrapping the single stitched score toolpath list. -/
theorem get_paths_by_color_singleton (parseColor : String → ℕ × ℕ × ℕ)
    (fuel : ℕ) (scale : ℚ) (es : List PathElem) :
    (get_paths_by_color parseColor fuel scale es).1.length = 1 ∧
      (get_paths_by_color parseColor fuel scale es).2.length = 1 ∧
      (get_paths_by_color parseColor fuel scale es).1 =
        [smart_stitch_subpaths
          (sortSubpaths (collectSubpaths parseColor fuel scale Role.cut es)) (3 / 10)] ∧
      (get_paths_by_color parseColor fuel scale es).2 =
        [smart_stitch_subpaths
          (sortSubpaths (collectSubpaths parseColor fuel scale Role.score es)) (3 / 10)] :=
  ⟨rfl, rfl, rfl, rfl⟩

/-- C3 counterexample: a path element whose style has no stroke entry at all
is not discarded; the default stroke string is the hex code of black, so the
element contributes its subpath to the cut output. -/
theorem absent_stroke_feeds_cut :
    exElemNoStroke.stroke = none ∧
      (get_paths_by_color parseHexColor 0 1 [exElemNoStroke]).1 =
        [[[(0, 0), (1, 0)]]] :=
  ⟨rfl, by decide⟩

/-- C4 counterexample: the one point subpath produced by two consecutive move
commands is part of the pool handed to the stitcher, so a subpath with fewer
than 2 points is not dropped before stitching. -/
theorem single_point_subpath_reaches_stitcher :
    [((0 : ℚ), (0 : ℚ))] ∈
        sortSubpaths (collectSubpaths parseHexColor 0 1 Role.cut [exElemTwoMoves]) ∧
      ([((0 : ℚ), (0 : ℚ))] : List Point).length < 2 := by decide

theorem insertLe_perm {α : Type} (le : α → α → Bool) (a : α) (l : List α) :
    (insertLe le a l).Perm (a :: l) := by
  induction l with
  | nil => exact List.Perm.refl _
  | cons b bs ih =>
    simp only [insertLe]
    split
    · exact List.Perm.refl _
    · exact (ih.cons b).trans (List.Perm.swap a b bs)

theorem sortLe_perm {α : Type} (le : α → α → Bool) (l : List α) :
    (sortLe le l).Perm l := by
  induction l with
  | nil => exact List.Perm.refl _
  | cons a as ih => exact (insertLe_perm le a (sortLe le as)).trans (ih.cons a)

theorem collectStep_mono (parseColor : String → ℕ × ℕ × ℕ) (fuel : ℕ)
    (scale : ℚ) (role : Role) (acc : List (List Point)) (e : PathElem)
    (s : List Point) (h : s ∈ acc) :
    s ∈ collectStep parseColor fuel scale role acc e := by
  unfold collectStep
  split
  · split
    · split
      · exact h
      · exact List.mem_append_left _ h
    · exact h
  · exact h

theorem foldl_collectStep_mono (parseColor : String → ℕ × ℕ × ℕ) (fuel : ℕ)
    (scale : ℚ) (role : Role) (s : List Point) :
    ∀ (es : List PathElem) (acc : List (List Point)), s ∈ acc →
      s ∈ es.foldl (collectStep parseColor fuel scale role) acc := by
  intro es
  induction es with
  | nil => intro acc h; exact h
  | cons e rest ih =>
    intro acc h
    exact ih _ (collectStep_mono parseColor fuel scale role acc e s h)

/-- C3 amended: a path element whose stroke entry is the string none, or the
empty string, is discarded: removing it from the selection leaves the output
of get_paths_by_color unchanged. (A path with no stroke entry at all is
instead defaulted to the hex code of black and classified Cut.) -/
theorem none_stroke_discarded (parseColor : String → ℕ × ℕ × ℕ) (fuel : ℕ)
    (scale : ℚ) (es1 es2 : List PathElem) (e : PathElem)
    (h : e.stroke = some "none" ∨ e.stroke = some "") :
    get_paths_by_color parseColor fuel scale (es1 ++ e :: es2) =
      get_paths_by_color parseColor fuel scale (es1 ++ es2) := by
  have hrole : elementRole parseColor e = Role.discard := by
    rcases h with h | h <;> simp [elementRole, styleStroke, h]
  have hstep : ∀ acc, collectStep parseColor fuel scale Role.cut acc e = acc ∧
      collectStep parseColor fuel scale Role.score acc e = acc := by
    intro acc
    constructor <;> · unfold collectStep; cases hp : e.isPath <;> simp [hp, hrole]
  have hcollect : ∀ role, role = Role.cut ∨ role = Role.score →
      collectSubpaths parseColor fuel scale role (es1 ++ e :: es2) =
        collectSubpaths parseColor fuel scale role (es1 ++ es2) := by
    intro role hr
    unfold collectSubpaths
    rw [List.foldl_append, List.foldl_append, List.foldl_cons]
    rcases hr with rfl | rfl
    · rw [(hstep _).1]
    · rw [(hstep _).2]
  unfold get_paths_by_color
  rw [hcollect Role.cut (Or.inl rfl), hcollect Role.score (Or.inr rfl)]

theorem none_stroke_discarded_witness :
    get_paths_by_color parseHexColor 0 1
        [{ isPath := true, stroke := some "none",
           cmds := [PathCmd.M 0 0, PathCmd.L 1 1] }] =
      get_paths_by_color parseHexColor 0 1 [] :=
  none_stroke_discarded parseHexColor 0 1 [] []
    { isPath := true, stroke := some "none", cmds := [PathCmd.M 0 0, PathCmd.L 1 1] }
    (Or.inl rfl)

/-- C4 amended: no minimum length filter exists; every extracted subpath of
every selected cut path element, including one point subpaths such as those
produced by consecutive move commands, is a member of the pool handed to the
stitcher. -/
theorem extracted_subpaths_not_dropped (parseColor : String → ℕ × ℕ × ℕ)
    (fuel : ℕ) (scale : ℚ) (es : List PathElem) (e : PathElem) (s : List Point)
    (he : e ∈ es) (hp : e.isPath = true)
    (hr : elementRole parseColor e = Role.cut)
    (hs : s ∈ _extract_path_data fuel scale (1 / 10) e.cmds) :
    s ∈ sortSubpaths (collectSubpaths parseColor fuel scale Role.cut es) := by
  obtain ⟨es1, es2, rfl⟩ := List.append_of_mem he
  have hin : s ∈ collectSubpaths parseColor fuel scale Role.cut (es1 ++ e :: es2) := by
    unfold collectSubpaths
    rw [List.foldl_append, List.foldl_cons]
    apply foldl_collectStep_mono
    unfold collectStep
    rw [if_pos hp, if_pos hr, if_neg (List.ne_nil_of_mem hs)]
    exact List.mem_append_right _ hs
  exact (sortLe_perm _ _).mem_iff.2 hin

theorem extracted_subpaths_not_dropped_witness :
    [((0 : ℚ), (0 : ℚ))] ∈
      sortSubpaths (collectSubpaths parseHexColor 0 1 Role.cut [exElemTwoMoves]) :=
  extracted_subpaths_not_dropped parseHexColor 0 1 [exElemTwoMoves] exElemTwoMoves
    [((0 : ℚ), (0 : ℚ))] (List.mem_singleton.mpr rfl) rfl (by decide) (by decide)

/-- Replay of one whole chain of the stitcher from its seed subpath and the
oriented fragments chosen for it, using exactly the chain extension step of
the source. -/
def renderChain (c : List Point × List (List Point × Bool)) : List Point :=
  c.2.foldl stepFrag c.1

/-- The input subpaths consumed by one chain: its seed and the underlying
subpath of each chosen fragment. -/
def chainInputs (c : List Point × List (List Point × Bool)) : List (List Point) :=
  c.1 :: c.2.map Prod.fst

theorem updateBest_idx_lt (dStart dEnd : ℚ) (i : ℕ) (b : Option (ℚ × ℕ × Bool))
    (hb : ∀ x, b = some x → x.2.1 < i) :
    (updateBest dStart dEnd i b).2.1 < i + 1 := by
  unfold updateBest
  cases b with
  | none => dsimp only; split <;> exact Nat.lt_succ_self i
  | some z =>
    obtain ⟨bd, bi, br⟩ := z
    dsimp only
    split_ifs <;>
      first
        | exact Nat.lt_succ_self i
        | exact Nat.lt_succ_of_lt (hb (bd, bi, br) rfl)

theorem findBestAux_idx_lt (lastPt : Point) :
    ∀ (l : List (List Point)) (i : ℕ) (b : Option (ℚ × ℕ × Bool)),
      (∀ x, b = some x → x.2.1 < i) →
      ∀ x, findBestAux lastPt l i b = some x → x.2.1 < i + l.length := by
  intro l
  induction l with
  | nil =>
    intro i b hb x hx
    simpa using hb x hx
  | cons sub rest ih =>
    intro i b hb x hx
    simp only [findBestAux] at hx
    have hb2 : ∀ y,
        (some (updateBest (dist2 (sub.headD (0, 0)) lastPt)
            (dist2 (sub.getLastD (0, 0)) lastPt) i b) : Option (ℚ × ℕ × Bool)) = some y →
          y.2.1 < i + 1 := by
      intro y hy
      cases hy
      exact updateBest_idx_lt _ _ i b hb
    have hx2 := ih (i + 1) _ hb2 x hx
    simpa [Nat.add_comm, Nat.add_assoc, Nat.add_left_comm] using hx2

theorem findBest_idx_lt (lastPt : Point) (unused : List (List Point))
    (x : ℚ × ℕ × Bool) (h : findBest lastPt unused = some x) :
    x.2.1 < unused.length := by
  have := findBestAux_idx_lt lastPt unused 0 none (by intro y hy; cases hy) x h
  simpa using this

theorem perm_getD_eraseIdx {α : Type} (d : α) :
    ∀ (l : List α) (i : ℕ), i < l.length →
      l.Perm (l.getD i d :: l.eraseIdx i) := by
  intro l
  induction l with
  | nil => intro i h; simp at h
  | cons a as ih =>
    intro i h
    cases i with
    | zero => simp
    | succ i =>
      have h' : i < as.length := by simpa using h
      refine ((ih i h').cons a).trans ?_
      simpa using List.Perm.swap (as.getD i d) a (as.eraseIdx i)

theorem stitchLoop_spec (tol : ℚ) :
    ∀ (fuel : ℕ) (chain : List Point) (unused : List (List Point)),
      ∃ frags : List (List Point × Bool),
        (stitchLoop tol fuel chain unused).1 = frags.foldl stepFrag chain ∧
        unused.Perm (frags.map Prod.fst ++ (stitchLoop tol fuel chain unused).2) := by
  intro fuel
  induction fuel with
  | zero =>
    intro chain unused
    exact ⟨[], rfl, by simpa [stitchLoop] using List.Perm.refl unused⟩
  | succ fuel ih =>
    intro chain unused
    simp only [stitchLoop]
    cases hfb : findBest (chain.getLastD (0, 0)) unused with
    | none => exact ⟨[], rfl, by simpa using List.Perm.refl unused⟩
    | some x =>
      obtain ⟨bd, idx, rev⟩ := x
      dsimp only
      by_cases hguard : 0 ≤ tol ∧ bd < tol ^ 2
      · rw [if_pos hguard]
        obtain ⟨frags, hchain, hperm⟩ :=
          ih (stepFrag chain (unused.getD idx [], rev)) (unused.eraseIdx idx)
        refine ⟨(unused.getD idx [], rev) :: frags, by simpa using hchain, ?_⟩
        have hidx : idx < unused.length := by
          simpa using findBest_idx_lt _ _ _ hfb
        refine (perm_getD_eraseIdx ([] : List Point) unused idx hidx).trans ?_
        simpa using hperm.cons (unused.getD idx [])
      · rw [if_neg hguard]
        exact ⟨[], rfl, by simpa using List.Perm.refl unused⟩

theorem stitchAll_spec (tol : ℚ) :
    ∀ (fuel : ℕ) (unused : List (List Point)), unused.length ≤ fuel →
      ∃ plan : List (List Point × List (List Point × Bool)),
        stitchAll tol fuel unused = plan.map renderChain ∧
        unused.Perm (plan.map chainInputs).flatten := by
  intro fuel
  induction fuel with
  | zero =>
    intro unused h
    cases unused with
    | nil => exact ⟨[], rfl, by simp⟩
    | cons a as => exact absurd h (by simp)
  | succ fuel ih =>
    intro unused h
    cases unused with
    | nil => exact ⟨[], rfl, by simp⟩
    | cons current rest =>
      simp only [stitchAll]
      obtain ⟨frags, hchain, hperm⟩ := stitchLoop_spec tol rest.length current rest
      have hlen : (stitchLoop tol rest.length current rest).2.length ≤ rest.length := by
        have hl := hperm.length_eq
        simp only [List.length_append] at hl
        omega
      have hfuel : (stitchLoop tol rest.length current rest).2.length ≤ fuel := by
        have : rest.length + 1 ≤ fuel + 1 := by simpa using h
        omega
      obtain ⟨plan, hall, hperm2⟩ := ih (stitchLoop tol rest.length current rest).2 hfuel
      refine ⟨(current, frags) :: plan, ?_, ?_⟩
      · simp only [List.map_cons]
        rw [← hall]
        exact congrArg (fun c => c :: stitchAll tol fuel (stitchLoop tol rest.length current rest).2) hchain
      · have hrest : rest.Perm (frags.map Prod.fst ++ (plan.map chainInputs).flatten) :=
          hperm.trans (List.Perm.append_left _ hperm2)
        simpa [chainInputs] using hrest.cons current

theorem foldl_min_map_add (c : ℚ) :
    ∀ (xs : List ℚ) (x : ℚ),
      (xs.map fun v => v + c).foldl min (x + c) = xs.foldl min x + c := by
  intro xs
  induction xs with
  | nil => intro x; rfl
  | cons y ys ih =>
    intro x
    simp only [List.map_cons, List.foldl_cons]
    rw [min_add_add_right, ih]

theorem foldl_max_map_add (c : ℚ) :
    ∀ (xs : List ℚ) (x : ℚ),
      (xs.map fun v => v + c).foldl max (x + c) = xs.foldl max x + c := by
  intro xs
  induction xs with
  | nil => intro x; rfl
  | cons y ys ih =>
    intro x
    simp only [List.map_cons, List.foldl_cons]
    rw [max_add_add_right, ih]

theorem pyMin_map_add (c : ℚ) (l : List ℚ) (h : l ≠ []) :
    pyMin (l.map fun v => v + c) = pyMin l + c := by
  cases l with
  | nil => exact absurd rfl h
  | cons x xs => simpa [pyMin] using foldl_min_map_add c xs x

theorem pyMax_map_add (c : ℚ) (l : List ℚ) (h : l ≠ []) :
    pyMax (l.map fun v => v + c) = pyMax l + c := by
  cases l with
  | nil => exact absurd rfl h
  | cons x xs => simpa [pyMax] using foldl_max_map_add c xs x

/-- C7: when the combined cut and score geometry has no point at all, bed
placement returns its input unchanged; otherwise there is one single uniform
translation (dx, dy), no rotation and no scale, that is applied to every point
of every toolpath of both roles, and the center of the axis aligned bounding
box of the translated point set is exactly (bed width / 2, bed height / 2). -/
theorem center_paths_on_bed_correct (cut_paths score_paths : List (List (List Point)))
    (bed_w bed_h margin : ℚ) :
    (((cut_paths ++ score_paths).flatten).flatten = [] →
      center_paths_on_bed cut_paths score_paths bed_w bed_h margin =
        (cut_paths, score_paths)) ∧
    (((cut_paths ++ score_paths).flatten).flatten ≠ [] →
      ∃ dx dy,
        (center_paths_on_bed cut_paths score_paths bed_w bed_h margin).1 =
            cut_paths.map (shift_path dx dy) ∧
          (center_paths_on_bed cut_paths score_paths bed_w bed_h margin).2 =
            score_paths.map (shift_path dx dy) ∧
          bboxCenter
              (((cut_paths.map (shift_path dx dy) ++
                score_paths.map (shift_path dx dy)).flatten).flatten) =
            (bed_w / 2, bed_h / 2)) := by
  constructor
  · intro h
    simp only [center_paths_on_bed]
    rw [if_pos h]
  · intro h
    refine ⟨(bed_w - (pyMax ((((cut_paths ++ score_paths).flatten).flatten).map Prod.fst) -
        pyMin ((((cut_paths ++ score_paths).flatten).flatten).map Prod.fst))) / 2 -
        pyMin ((((cut_paths ++ score_paths).flatten).flatten).map Prod.fst),
      (bed_h - (pyMax ((((cut_paths ++ score_paths).flatten).flatten).map Prod.snd) -
        pyMin ((((cut_paths ++ score_paths).flatten).flatten).map Prod.snd))) / 2 -
        pyMin ((((cut_paths ++ score_paths).flatten).flatten).map Prod.snd),
      ?_, ?_, ?_⟩
    · simp only [center_paths_on_bed]
      rw [if_neg h]
    · simp only [center_paths_on_bed]
      rw [if_neg h]
    · have hpts : ∀ dx dy : ℚ,
          ((cut_paths.map (shift_path dx dy) ++
            score_paths.map (shift_path dx dy)).flatten).flatten =
            ((((cut_paths ++ score_paths).flatten).flatten).map
              fun p : Point => (p.1 + dx, p.2 + dy)) := by
        intro dx dy
        simp only [← List.map_append, List.map_flatten]
        rfl
      rw [hpts]
      have hxs : ∀ dx dy : ℚ,
          (((((cut_paths ++ score_paths).flatten).flatten).map
              fun p : Point => (p.1 + dx, p.2 + dy)).map Prod.fst) =
            ((((cut_paths ++ score_paths).flatten).flatten).map Prod.fst).map
              fun v => v + dx := by
        intro dx dy
        simp only [List.map_map]
        rfl
      have hys : ∀ dx dy : ℚ,
          (((((cut_paths ++ score_paths).flatten).flatten).map
              fun p : Point => (p.1 + dx, p.2 + dy)).map Prod.snd) =
            ((((cut_paths ++ score_paths).flatten).flatten).map Prod.snd).map
              fun v => v + dy := by
        intro dx dy
        simp only [List.map_map]
        rfl
      have hne1 : (((cut_paths ++ score_paths).flatten).flatten).map Prod.fst ≠ [] := by
        intro hc
        exact h (List.map_eq_nil_iff.mp hc)
      have hne2 : (((cut_paths ++ score_paths).flatten).flatten).map Prod.snd ≠ [] := by
        intro hc
        exact h (List.map_eq_nil_iff.mp hc)
      unfold bboxCenter
      rw [hxs, hys, pyMin_map_add _ _ hne1, pyMax_map_add _ _ hne1,
        pyMin_map_add _ _ hne2, pyMax_map_add _ _ hne2]
      refine Prod.ext ?_ ?_ <;> dsimp only <;> ring

theorem center_paths_on_bed_correct_witness :
    center_paths_on_bed [] [] 300 200 5 = ([], []) ∧
      ∃ dx dy,
        (center_paths_on_bed [[[((0 : ℚ), (0 : ℚ)), (10, 20)]]] [] 300 200 5).1 =
            [[[((0 : ℚ), (0 : ℚ)), (10, 20)]]].map (shift_path dx dy) ∧
          (center_paths_on_bed [[[((0 : ℚ), (0 : ℚ)), (10, 20)]]] [] 300 200 5).2 =
            ([] : List (List (List Point))).map (shift_path dx dy) ∧
          bboxCenter
              ((([[[((0 : ℚ), (0 : ℚ)), (10, 20)]]].map (shift_path dx dy) ++
                ([] : List (List (List Point))).map (shift_path dx dy)).flatten).flatten) =
            (300 / 2, 200 / 2) :=
  ⟨(center_paths_on_bed_correct [] [] 300 200 5).1 rfl,
    (center_paths_on_bed_correct [[[((0 : ℚ), (0 : ℚ)), (10, 20)]]] [] 300 200 5).2
      (by decide)⟩

theorem stitchLoop_zero (tol : ℚ) (chain : List Point)
    (unused : List (List Point)) : stitchLoop tol 0 chain unused = (chain, unused) := rfl

theorem stitchLoop_succ_eq (tol : ℚ) (fuel : ℕ) (chain : List Point)
    (unused : List (List Point)) :
    stitchLoop tol (fuel + 1) chain unused =
      match findBest (chain.getLastD (0, 0)) unused with
      | none => (chain, unused)
      | some (bd, idx, rev) =>
        if 0 ≤ tol ∧ bd < tol ^ 2 then
          stitchLoop tol fuel (stepFrag chain (unused.getD idx [], rev)) (unused.eraseIdx idx)
        else (chain, unused) := rfl

theorem stitchAll_nil (tol : ℚ) (fuel : ℕ) :
    stitchAll tol (fuel + 1) [] = [] := rfl

theorem stitchAll_cons (tol : ℚ) (fuel : ℕ) (current : List Point)
    (rest : List (List Point)) :
    stitchAll tol (fuel + 1) (current :: rest) =
      (stitchLoop tol rest.length current rest).1 ::
        stitchAll tol fuel (stitchLoop tol rest.length current rest).2 := rfl

theorem updateBest_none_idx (dStart dEnd : ℚ) (i : ℕ) :
    (updateBest dStart dEnd i none).2.1 = i := by
  unfold updateBest
  dsimp only
  split <;> rfl

theorem updateBest_none_fst (dStart dEnd : ℚ) (i : ℕ) :
    (updateBest dStart dEnd i none).1 = min dStart dEnd := by
  unfold updateBest
  dsimp only
  rcases lt_or_ge dEnd dStart with h | h
  · rw [if_pos h, min_eq_right h.le]
  · rw [if_neg (not_lt.2 h), min_eq_left h]

/-- C2: with exactly two subpaths, the first of which is at least as long (so
the stable descending length sort seeds the first chain with it), when the
minimum of the squared distances from the last point of the first subpath to
the start and end points of the second equals the squared tolerance, the two
are not joined and the stitcher returns the two subpaths unchanged (strict
inequality); when that minimum is strictly below the squared tolerance, they
are joined into a single toolpath. Squared distances are compared because for
a nonnegative tolerance the comparison of hypot distances with the tolerance
is equivalent to the comparison of their squares. -/
theorem stitch_tolerance_boundary (s1 s2 : List Point) (tol : ℚ)
    (hlen : s2.length ≤ s1.length) (htol : 0 ≤ tol) :
    (min (dist2 (s2.headD (0, 0)) (s1.getLastD (0, 0)))
        (dist2 (s2.getLastD (0, 0)) (s1.getLastD (0, 0))) = tol ^ 2 →
      smart_stitch_subpaths [s1, s2] tol = [s1, s2]) ∧
    (min (dist2 (s2.headD (0, 0)) (s1.getLastD (0, 0)))
        (dist2 (s2.getLastD (0, 0)) (s1.getLastD (0, 0))) < tol ^ 2 →
      (smart_stitch_subpaths [s1, s2] tol).length = 1) := by
  have hle : (decide (s2.length ≤ s1.length)) = true := decide_eq_true hlen
  have hsort : sortByLenDesc [s1, s2] = [s1, s2] := by
    simp [sortByLenDesc, sortLe, insertLe, hle]
  have hmain : smart_stitch_subpaths [s1, s2] tol = stitchAll tol 2 [s1, s2] := by
    unfold smart_stitch_subpaths
    rw [if_neg (by simp : ([s1, s2] : List (List Point)) ≠ []), hsort]
    rfl
  rcases hu : updateBest (dist2 (s2.headD (0, 0)) (s1.getLastD (0, 0)))
      (dist2 (s2.getLastD (0, 0)) (s1.getLastD (0, 0))) 0 none with ⟨bd, bi, br⟩
  have hfb : findBest (s1.getLastD (0, 0)) [s2] = some (bd, bi, br) := by
    rw [show findBest (s1.getLastD (0, 0)) [s2] =
        some (updateBest (dist2 (s2.headD (0, 0)) (s1.getLastD (0, 0)))
          (dist2 (s2.getLastD (0, 0)) (s1.getLastD (0, 0))) 0 none) from rfl, hu]
  have hbd : bd = min (dist2 (s2.headD (0, 0)) (s1.getLastD (0, 0)))
      (dist2 (s2.getLastD (0, 0)) (s1.getLastD (0, 0))) := by
    rw [← updateBest_none_fst (dist2 (s2.headD (0, 0)) (s1.getLastD (0, 0)))
      (dist2 (s2.getLastD (0, 0)) (s1.getLastD (0, 0))) 0, hu]
  have hbi : bi = 0 := by
    rw [← updateBest_none_idx (dist2 (s2.headD (0, 0)) (s1.getLastD (0, 0)))
      (dist2 (s2.getLastD (0, 0)) (s1.getLastD (0, 0))) 0, hu]
  subst hbi
  have hone : stitchAll tol 1 [s2] = [s2] := by
    show stitchAll tol (0 + 1) (s2 :: []) = [s2]
    rw [stitchAll_cons]
    dsimp only [List.length_nil]
    rw [stitchLoop_zero]
    rfl
  constructor
  · intro hA
    have hguardneg : ¬(0 ≤ tol ∧ bd < tol ^ 2) := by
      rintro ⟨-, hlt⟩
      rw [hbd, hA] at hlt
      exact lt_irrefl _ hlt
    have hloop : stitchLoop tol 1 s1 [s2] = (s1, [s2]) := by
      show stitchLoop tol (0 + 1) s1 [s2] = (s1, [s2])
      rw [stitchLoop_succ_eq, hfb]
      dsimp only
      rw [if_neg hguardneg]
    rw [hmain]
    show stitchAll tol (1 + 1) (s1 :: [s2]) = [s1, s2]
    rw [stitchAll_cons]
    simp only [List.length_cons, List.length_nil, Nat.zero_add]
    rw [hloop]
    dsimp only
    rw [hone]
  · intro hB
    have hguard : 0 ≤ tol ∧ bd < tol ^ 2 := ⟨htol, by rw [hbd]; exact hB⟩
    have hloop : stitchLoop tol 1 s1 [s2] = (stepFrag s1 (s2, br), []) := by
      show stitchLoop tol (0 + 1) s1 [s2] = (stepFrag s1 (s2, br), [])
      rw [stitchLoop_succ_eq, hfb]
      dsimp only
      rw [if_pos hguard, stitchLoop_zero]
      rfl
    rw [hmain]
    show (stitchAll tol (1 + 1) (s1 :: [s2])).length = 1
    rw [stitchAll_cons]
    simp only [List.length_cons, List.length_nil, Nat.zero_add]
    rw [hloop]
    dsimp only
    rw [show stitchAll tol 1 ([] : List (List Point)) = [] from rfl]
    rfl

theorem stitch_tolerance_boundary_witness :
    smart_stitch_subpaths [[((0 : ℚ), (0 : ℚ)), (1, 0)], [(2, 0), (5, 0)]] 1 =
        [[(0, 0), (1, 0)], [(2, 0), (5, 0)]] ∧
      (smart_stitch_subpaths [[((0 : ℚ), (0 : ℚ)), (1, 0)], [(1, 1 / 2), (5, 0)]] 1).length = 1 :=
  ⟨(stitch_tolerance_boundary [(0, 0), (1, 0)] [(2, 0), (5, 0)] 1 (by decide)
      (by decide)).1 (by decide),
    (stitch_tolerance_boundary [(0, 0), (1, 0)] [(1, 1 / 2), (5, 0)] 1 (by decide)
      (by decide)).2 (by decide)⟩

/-- C9: the output of the stitcher exactly consumes its input. There is a
plan, one entry per output toolpath, consisting of a seed subpath and a list
of oriented fragments, such that every output toolpath is the replay of its
plan entry (each fragment appearing with its point order preserved or exactly
reversed, and with its leading point omitted exactly when it coincides with
the preceding chain point within the near zero epsilon, per renderChain,
stepFrag, appendFrag and renderFrag), and the multiset of subpaths used by
the plan, seeds included, is a permutation of the input: no subpath is lost,
duplicated, or reordered internally. -/
theorem stitcher_consumes_input (subpaths : List (List Point)) (tol : ℚ) :
    ∃ plan : List (List Point × List (List Point × Bool)),
      smart_stitch_subpaths subpaths tol = plan.map renderChain ∧
      subpaths.Perm (plan.map chainInputs).flatten := by
  unfold smart_stitch_subpaths
  by_cases h : subpaths = []
  · subst h
    exact ⟨[], by simp, by simp⟩
  · rw [if_neg h]
    obtain ⟨plan, h1, h2⟩ :=
      stitchAll_spec tol (sortByLenDesc subpaths).length (sortByLenDesc subpaths)
        (Nat.le_refl _)
    exact ⟨plan, h1, (sortLe_perm _ subpaths).symm.trans h2⟩

theorem flatten_combine (P : Point × Point × Point × Point → Prop)
    (p0 pm p3 : Point)
    (L R : List Point × List (Point × Point × Point × Point) × List Point)
    (midL midR : List Point)
    (hL : L.1 = p0 :: midL ++ [pm]) (hR : R.1 = pm :: midR ++ [p3])
    (hsubL : ∀ q ∈ L.2.2, q ∈ L.1) (hsubR : ∀ q ∈ R.2.2, q ∈ R.1)
    (hleafL : ∀ lf ∈ L.2.1, P lf) (hleafR : ∀ lf ∈ R.2.1, P lf) :
    (∃ mid : List Point, L.1.dropLast ++ R.1 = p0 :: mid ++ [p3]) ∧
      (∀ q ∈ pm :: (L.2.2 ++ R.2.2), q ∈ L.1.dropLast ++ R.1) ∧
      (∀ lf ∈ L.2.1 ++ R.2.1, P lf) := by
  have hdropL : L.1.dropLast = p0 :: midL := by
    rw [hL, show p0 :: midL ++ [pm] = (p0 :: midL) ++ [pm] from rfl,
      List.dropLast_concat]
  refine ⟨⟨midL ++ pm :: midR, ?_⟩, ?_, ?_⟩
  · rw [hdropL, hR]
    simp
  · intro q hq
    rcases List.mem_cons.mp hq with rfl | hq2
    · exact List.mem_append_right _ (by rw [hR]; exact List.mem_cons_self _ _)
    · rcases List.mem_append.mp hq2 with hq3 | hq3
      · have hqL : q ∈ L.1 := hsubL q hq3
        rw [hL, show p0 :: midL ++ [pm] = (p0 :: midL) ++ [pm] from rfl] at hqL
        rcases List.mem_append.mp hqL with h4 | h4
        · exact List.mem_append_left _ (by rw [hdropL]; exact h4)
        · have hqpm : q = pm := by simpa using h4
          subst hqpm
          exact List.mem_append_right _ (by rw [hR]; exact List.mem_cons_self _ _)
      · exact List.mem_append_right _ (hsubR q hq3)
  · intro lf hlf
    rcases List.mem_append.mp hlf with h | h
    · exact hleafL lf h
    · exact hleafR lf h

theorem flattenRec_spec (flatness : ℚ) :
    ∀ (fuel : ℕ) (p0 p1 p2 p3 : Point),
      (∃ mid : List Point,
        (flattenRec flatness fuel p0 p1 p2 p3).1 = p0 :: mid ++ [p3]) ∧
      (∀ q ∈ (flattenRec flatness fuel p0 p1 p2 p3).2.2,
        q ∈ (flattenRec flatness fuel p0 p1 p2 p3).1) ∧
      (∀ lf ∈ (flattenRec flatness fuel p0 p1 p2 p3).2.1,
        point_line_dist2 lf.2.1 lf.1 lf.2.2.2 < flatness ^ 2 ∧
          point_line_dist2 lf.2.2.1 lf.1 lf.2.2.2 < flatness ^ 2) := by
  intro fuel
  induction fuel with
  | zero =>
    intro p0 p1 p2 p3
    refine ⟨⟨[], rfl⟩, ?_, ?_⟩
    · intro q hq
      exact absurd hq (List.not_mem_nil q)
    · intro lf hlf
      exact absurd hlf (List.not_mem_nil lf)
  | succ fuel ih =>
    intro p0 p1 p2 p3
    by_cases hflat :
        max (point_line_dist2 p1 p0 p3) (point_line_dist2 p2 p0 p3) < flatness ^ 2
    · have hval : flattenRec flatness (fuel + 1) p0 p1 p2 p3 =
          ([p0, p3], [(p0, p1, p2, p3)], []) := by
        simp only [flattenRec]
        rw [if_pos hflat]
      rw [hval]
      refine ⟨⟨[], rfl⟩, ?_, ?_⟩
      · intro q hq
        exact absurd hq (List.not_mem_nil q)
      · intro lf hlf
        have hlf2 : lf = (p0, p1, p2, p3) := by simpa using hlf
        subst hlf2
        exact ⟨lt_of_le_of_lt (le_max_left _ _) hflat,
          lt_of_le_of_lt (le_max_right _ _) hflat⟩
    · have hval : flattenRec flatness (fuel + 1) p0 p1 p2 p3 =
          ((flattenRec flatness fuel p0 (midpoint2 p0 p1)
              (midpoint2 (midpoint2 p0 p1) (midpoint2 p1 p2))
              (midpoint2 (midpoint2 (midpoint2 p0 p1) (midpoint2 p1 p2))
                (midpoint2 (midpoint2 p1 p2) (midpoint2 p2 p3)))).1.dropLast ++
            (flattenRec flatness fuel
              (midpoint2 (midpoint2 (midpoint2 p0 p1) (midpoint2 p1 p2))
                (midpoint2 (midpoint2 p1 p2) (midpoint2 p2 p3)))
              (midpoint2 (midpoint2 p1 p2) (midpoint2 p2 p3))
              (midpoint2 p2 p3) p3).1,
          (flattenRec flatness fuel p0 (midpoint2 p0 p1)
              (midpoint2 (midpoint2 p0 p1) (midpoint2 p1 p2))
              (midpoint2 (midpoint2 (midpoint2 p0 p1) (midpoint2 p1 p2))
                (midpoint2 (midpoint2 p1 p2) (midpoint2 p2 p3)))).2.1 ++
            (flattenRec flatness fuel
              (midpoint2 (midpoint2 (midpoint2 p0 p1) (midpoint2 p1 p2))
                (midpoint2 (midpoint2 p1 p2) (midpoint2 p2 p3)))
              (midpoint2 (midpoint2 p1 p2) (midpoint2 p2 p3))
              (midpoint2 p2 p3) p3).2.1,
          (midpoint2 (midpoint2 (midpoint2 p0 p1) (midpoint2 p1 p2))
              (midpoint2 (midpoint2 p1 p2) (midpoint2 p2 p3))) ::
            ((flattenRec flatness fuel p0 (midpoint2 p0 p1)
                (midpoint2 (midpoint2 p0 p1) (midpoint2 p1 p2))
                (midpoint2 (midpoint2 (midpoint2 p0 p1) (midpoint2 p1 p2))
                  (midpoint2 (midpoint2 p1 p2) (midpoint2 p2 p3)))).2.2 ++
              (flattenRec flatness fuel
                (midpoint2 (midpoint2 (midpoint2 p0 p1) (midpoint2 p1 p2))
                  (midpoint2 (midpoint2 p1 p2) (midpoint2 p2 p3)))
                (midpoint2 (midpoint2 p1 p2) (midpoint2 p2 p3))
                (midpoint2 p2 p3) p3).2.2)) := by
        simp only [flattenRec]
        rw [if_neg hflat]
      rw [hval]
      obtain ⟨⟨midL, hL⟩, hsubL, hleafL⟩ :=
        ih p0 (midpoint2 p0 p1) (midpoint2 (midpoint2 p0 p1) (midpoint2 p1 p2))
          (midpoint2 (midpoint2 (midpoint2 p0 p1) (midpoint2 p1 p2))
            (midpoint2 (midpoint2 p1 p2) (midpoint2 p2 p3)))
      obtain ⟨⟨midR, hR⟩, hsubR, hleafR⟩ :=
        ih (midpoint2 (midpoint2 (midpoint2 p0 p1) (midpoint2 p1 p2))
            (midpoint2 (midpoint2 p1 p2) (midpoint2 p2 p3)))
          (midpoint2 (midpoint2 p1 p2) (midpoint2 p2 p3)) (midpoint2 p2 p3) p3
      exact flatten_combine
        (fun lf => point_line_dist2 lf.2.1 lf.1 lf.2.2.2 < flatness ^ 2 ∧
          point_line_dist2 lf.2.2.1 lf.1 lf.2.2.2 < flatness ^ 2)
        p0
        (midpoint2 (midpoint2 (midpoint2 p0 p1) (midpoint2 p1 p2))
          (midpoint2 (midpoint2 p1 p2) (midpoint2 p2 p3)))
        p3 _ _ midL midR hL hR hsubL hsubR hleafL hleafR

theorem flatten_degenerate (fuel : ℕ) (q : Point) (d : ℚ) (hd : 0 < d) :
    _flatten_cubic_bezier fuel q q q q d = [q, q] := by
  cases fuel with
  | zero => rfl
  | succ fuel =>
    have h0 : point_line_dist2 q q q = 0 := by
      unfold point_line_dist2
      rw [if_pos rfl]
      unfold dist2
      ring
    unfold _flatten_cubic_bezier
    simp only [flattenRec]
    rw [if_pos]
    rw [h0, max_self]
    exact pow_pos hd 2

theorem getLastD_triple (x : Point) (mid : List Point) (y dflt : Point) :
    (x :: mid ++ [y]).getLastD dflt = y := by
  rw [show x :: mid ++ [y] = (x :: mid) ++ [y] from rfl, List.getLastD_concat]

/-- C6: for every cubic input and every deviation threshold, the flattener
returns at least two points, starting at the start point and ending at the end
point of the curve; every subdivision midpoint it computes is emitted in the
output (so the set of discarded subdivision points is empty and the deviation
bound on discarded points holds vacuously); every leaf segment it accepts
passed the flatness test, that is, both of its interior control points lie
strictly within the threshold of the chord of its two emitted points; and a
degenerate curve with all four control points equal returns exactly the two
identical endpoints whenever the threshold is positive. -/
theorem flatten_contract (fuel : ℕ) (p0 p1 p2 p3 q : Point) (d : ℚ) :
    (2 ≤ (_flatten_cubic_bezier fuel p0 p1 p2 p3 d).length ∧
      (_flatten_cubic_bezier fuel p0 p1 p2 p3 d).headD (0, 0) = p0 ∧
      (_flatten_cubic_bezier fuel p0 p1 p2 p3 d).getLastD (0, 0) = p3) ∧
    (∀ s ∈ subdivPoints fuel p0 p1 p2 p3 d,
      s ∈ _flatten_cubic_bezier fuel p0 p1 p2 p3 d) ∧
    (∀ lf ∈ acceptedLeaves fuel p0 p1 p2 p3 d,
      point_line_dist2 lf.2.1 lf.1 lf.2.2.2 < d ^ 2 ∧
        point_line_dist2 lf.2.2.1 lf.1 lf.2.2.2 < d ^ 2) ∧
    (0 < d → _flatten_cubic_bezier fuel q q q q d = [q, q]) := by
  obtain ⟨⟨mid, hmid⟩, hsub, hleaf⟩ := flattenRec_spec d fuel p0 p1 p2 p3
  refine ⟨⟨?_, ?_, ?_⟩, hsub, hleaf, fun hd => flatten_degenerate fuel q d hd⟩
  · unfold _flatten_cubic_bezier
    rw [hmid]
    simp
  · unfold _flatten_cubic_bezier
    rw [hmid]
    rfl
  · unfold _flatten_cubic_bezier
    rw [hmid]
    exact getLastD_triple p0 mid p3 (0, 0)

theorem flatten_contract_witness :
    (0 : ℚ) < 1 / 10 ∧
      _flatten_cubic_bezier 3 ((5 : ℚ), (5 : ℚ)) (5, 5) (5, 5) (5, 5) (1 / 10) =
        [(5, 5), (5, 5)] :=
  ⟨by norm_num,
    (flatten_contract 3 (0, 0) (0, 0) (0, 0) (0, 0) (5, 5) (1 / 10)).2.2.2
      (by norm_num)⟩
